import Mathlib

/-!
Shallow embedding of the trading-strategy engine of
`poe-2-currency-exchange-trader` (file `src/trade/strategies.py`, with the
`Trade`/`MarketData` data model of `src/models/market_data.py`).

Python floats are modelled as exact rationals (`ℚ`); `numpy`'s standard
deviation, which takes a square root, lands in `ℝ`.  The decimal literals the
ratio parser handles are carried around as exact pairs (mantissa, number of
fractional digits), turned into `ℚ` at the end of the parse.  Python's
insertion-ordered `dict` is modelled as an association list
(`List (key × value)`) where writing an existing key updates it in place and a
fresh key is appended at the end; the `set` of known currencies is modelled as
a duplicate-free list in insertion order.  Timestamps are integers counting
minutes, passed explicitly to the operations that call `datetime.now()`.
-/

namespace PoeTrader

/-- `Trade` from `src/models/market_data.py`: one quote, a ratio string and a stock. -/
structure Trade where
  ratio : String
  stock : Int
  deriving DecidableEq, Repr

/-- `MarketData` from `src/models/market_data.py`: one market snapshot. -/
structure MarketData where
  i_want : String
  i_have : String
  market_ratio : String
  available_trades : List Trade
  competing_trades : List Trade
  deriving DecidableEq, Repr

/-! ### `TradingStrategies.parse_ratio`

The parser is split in two stages: a character-level stage that produces the
parse result as an exact fraction of two decimal literals (each a pair
(mantissa, number of fractional digits)), and the conversion of that result to
`ℚ`.  The failure cases that the source turns into `0.0` (unparsable text,
caught `ValueError`/`ZeroDivisionError`) yield the fraction `0/1`. -/

/-- Python `str.isdigit` on the ASCII characters the source feeds it. -/
def pyIsDigit (c : Char) : Bool := c.isDigit

/-- `''.join(c for c in s if c.isdigit() or c == '.')`. -/
def keepNumChars (cs : List Char) : List Char :=
  cs.filter (fun c => pyIsDigit c || c = '.')

/-- Decimal value of a digit list, `0` on the empty list. -/
def natOfDigits (cs : List Char) : Nat :=
  cs.foldl (fun acc c => acc * 10 + (c.toNat - '0'.toNat)) 0

/-- A decimal literal as an exact value: `(m, k)` stands for `m / 10 ^ k`. -/
abbrev Decimal := Nat × Nat

/-- Value of a `Decimal` as a rational. -/
def decValue (p : Decimal) : ℚ := (p.1 : ℚ) / 10 ^ p.2

/-- Python `float(s)` on a string made of digits and dots: defined exactly when
there is at most one dot and at least one digit (otherwise `float` raises
`ValueError`, which `parse_ratio` catches); the value of `intPart.fracPart` is
the mantissa (all digits in order) over `10 ^ (number of fractional digits)`. -/
def pyDecimal? (cs : List Char) : Option Decimal :=
  if cs.count '.' ≤ 1 ∧ cs.any pyIsDigit then
    some (natOfDigits (cs.filter pyIsDigit),
      ((cs.dropWhile (fun c => c ≠ '.')).drop 1).length)
  else none

/-- Python `str.strip`. -/
def trimChars (cs : List Char) : List Char :=
  ((cs.dropWhile Char.isWhitespace).reverse.dropWhile Char.isWhitespace).reverse

/-- The parse result standing for `0.0`: the fraction `(0/10^0) / (1/10^0)`. -/
def ratioZero : Decimal × Decimal := ((0, 0), (1, 0))

/-- The `"x:y"` branch of `parse_ratio`: `num, denom = ratio_str.split(':')`
(raising a caught `ValueError` unless there is exactly one colon), strip
non-numeric characters from both sides, reject an empty side, convert both
sides with `float` and divide; a denominator equal to `0.0` (mantissa `0`)
raises the caught `ZeroDivisionError`. -/
def parseColonForm (cs : List Char) : Decimal × Decimal :=
  if cs.count ':' = 1 then
    let num := keepNumChars (cs.takeWhile (fun c => c ≠ ':'))
    let denom := keepNumChars ((cs.dropWhile (fun c => c ≠ ':')).drop 1)
    if num.isEmpty || denom.isEmpty then ratioZero
    else
      match pyDecimal? num, pyDecimal? denom with
      | some a, some b => if b.1 = 0 then ratioZero else (a, b)
      | _, _ => ratioZero
  else ratioZero

/-- The trailing branch of `parse_ratio`:
`if ratio_str.replace('.', '').isdigit(): return float(ratio_str)`, where the
`float` call can still raise a (caught) `ValueError` on a second dot. -/
def parsePlainNumber (cs : List Char) : Decimal × Decimal :=
  let nodots := cs.filter (fun c => c ≠ '.')
  if ¬nodots.isEmpty ∧ nodots.all pyIsDigit then
    match pyDecimal? cs with
    | some v => (v, (1, 0))
    | none => ratioZero
  else ratioZero

/-- Character-level `TradingStrategies.parse_ratio`.  The `'<'`/`'>'` branch
recurses on the stripped tail; since that tail is strictly shorter, a fuel of
the input's length is never exhausted (the fuel-0 fallback is unreachable),
which keeps the recursion structural. -/
def parseRatioCharsD (fuel : Nat) (cs : List Char) : Decimal × Decimal :=
  if cs.contains ':' then
    parseColonForm cs
  else if cs.head? = some '<' ∨ cs.head? = some '>' then
    match fuel with
    | 0 => ratioZero
    | f + 1 => parseRatioCharsD f (trimChars cs.tail)
  else
    parsePlainNumber cs

/-- Character-level parse of a whole string, with the length as fuel. -/
def parseD (s : String) : Decimal × Decimal :=
  parseRatioCharsD s.length s.data

/-- `TradingStrategies.parse_ratio` (it reads no instance state). -/
def parse_ratio (s : String) : ℚ :=
  decValue (parseD s).1 / decValue (parseD s).2

/-- Evaluation helper: once the character-level parse is computed (by
`decide`), the value of `parse_ratio` is the fraction of the two decimals. -/
theorem parse_ratio_eval {s : String} {a b : Decimal}
    (h : parseD s = (a, b)) :
    parse_ratio s = decValue a / decValue b := by
  simp [parse_ratio, h]

example : parseD "3.5:1" = ((35, 1), (1, 0)) := by decide
example : parse_ratio "3.5:1" = 7 / 2 := by
  have h : parseD "3.5:1" = ((35, 1), (1, 0)) := by decide
  rw [parse_ratio_eval h]; norm_num [decValue]
example : parse_ratio "100:1" = 100 := by
  have h : parseD "100:1" = ((100, 0), (1, 0)) := by decide
  rw [parse_ratio_eval h]; norm_num [decValue]
example : parse_ratio "0.3:1" = 3 / 10 := by
  have h : parseD "0.3:1" = ((3, 1), (1, 0)) := by decide
  rw [parse_ratio_eval h]; norm_num [decValue]
example : parse_ratio "< 3:1" = 3 := by
  have h : parseD "< 3:1" = ((3, 0), (1, 0)) := by decide
  rw [parse_ratio_eval h]; norm_num [decValue]
example : parse_ratio "abc" = 0 := by
  have h : parseD "abc" = ((0, 0), (1, 0)) := by decide
  rw [parse_ratio_eval h]; norm_num [decValue]
example : parse_ratio "3:0" = 0 := by
  have h : parseD "3:0" = ((0, 0), (1, 0)) := by decide
  rw [parse_ratio_eval h]; norm_num [decValue]
example : parse_ratio "foo:" = 0 := by
  have h : parseD "foo:" = ((0, 0), (1, 0)) := by decide
  rw [parse_ratio_eval h]; norm_num [decValue]
example : parse_ratio "1:2:3" = 0 := by
  have h : parseD "1:2:3" = ((0, 0), (1, 0)) := by decide
  rw [parse_ratio_eval h]; norm_num [decValue]
example : parse_ratio "2" = 2 := by
  have h : parseD "2" = ((2, 0), (1, 0)) := by decide
  rw [parse_ratio_eval h]; norm_num [decValue]
example : parse_ratio "1.2.3" = 0 := by
  have h : parseD "1.2.3" = ((0, 0), (1, 0)) := by decide
  rw [parse_ratio_eval h]; norm_num [decValue]
example : parse_ratio "" = 0 := by
  have h : parseD "" = ((0, 0), (1, 0)) := by decide
  rw [parse_ratio_eval h]; norm_num [decValue]

/-! ### State: `TradingStrategies.__init__` and the market-history dict

Timestamps are integers counting minutes (`datetime.now()` is passed in
explicitly by the callers of the operations that read the clock); `timedelta
(minutes=30)` is the integer `30`. -/

/-- The dictionary stored per pair by `update_market_history`: the two trade
lists the read paths (`calculate_volatility`, `find_triangle_arbitrage`,
`find_market_making_opportunities`) access.  The source stores the caller's
dict after converting `Trade` objects to field-identical dicts, so the
conversion is the identity here. -/
structure HistData where
  available_trades : List Trade
  competing_trades : List Trade
  deriving DecidableEq, Repr

/-- One value of `self.market_history`: `{'timestamp': now, 'data': data}`. -/
structure HistRecord where
  timestamp : ℤ
  data : HistData
  deriving DecidableEq, Repr

/-- The mutable state set up in `TradingStrategies.__init__`. -/
structure TradingStrategies where
  market_history : List ((String × String) × HistRecord)
  history_window : ℤ
  min_profit_threshold : ℚ
  max_trade_volume : Int
  volatility_window : ℤ
  known_currencies : List String
  deriving DecidableEq, Repr

/-- `TradingStrategies()`: empty history, 30-minute windows, 1.5% minimum
profit, volume cap 1000, no known currencies. -/
def TradingStrategies.init : TradingStrategies where
  market_history := []
  history_window := 30
  min_profit_threshold := 3 / 200
  max_trade_volume := 1000
  volatility_window := 30
  known_currencies := []

/-- Python dict write `m[k] = v`: an existing key is updated in place, a fresh
key is appended at the end. -/
def dictSet {β : Type} (m : List ((String × String) × β)) (k : String × String) (v : β) :
    List ((String × String) × β) :=
  if m.any (fun kv => kv.1 == k) then
    m.map (fun kv => if kv.1 == k then (k, v) else kv)
  else m ++ [(k, v)]

/-- Python dict read `m[k]` / membership `k in m`. -/
def dictGet {β : Type} (m : List ((String × String) × β)) (k : String × String) : Option β :=
  (m.find? (fun kv => kv.1 == k)).map (fun kv => kv.2)

/-- Python set insert `s.add(c)` for the insertion-ordered model of a set. -/
def setAdd (l : List String) (c : String) : List String :=
  if c ∈ l then l else l ++ [c]

/-- `TradingStrategies.update_market_history(pair, data)` at clock reading
`now`: convert the trade objects (identity here), write
`{'timestamp': now, 'data': data}` under `pair`, drop every entry of every
pair whose timestamp is not after `now - history_window`, and add both
currencies of the pair to `known_currencies`. -/
def update_market_history (s : TradingStrategies) (now : ℤ) (pair : String × String)
    (data : HistData) : TradingStrategies :=
  { s with
    market_history :=
      (dictSet s.market_history pair ⟨now, data⟩).filter
        (fun kv => now - s.history_window < kv.2.timestamp),
    known_currencies := setAdd (setAdd s.known_currencies pair.1) pair.2 }

/-- All records a reader can see for a pair, in storage order. -/
def pairHistory (s : TradingStrategies) (pair : String × String) : List HistRecord :=
  (s.market_history.filter (fun kv => kv.1 == pair)).map (fun kv => kv.2)

example :
    (update_market_history .init 0 ("a", "b") ⟨[⟨"2:1", 10⟩], []⟩).market_history =
      [(("a", "b"), ⟨0, ⟨[⟨"2:1", 10⟩], []⟩⟩)] := by decide

example :
    (update_market_history (update_market_history .init 0 ("a", "b") ⟨[⟨"2:1", 10⟩], []⟩)
        1 ("a", "b") ⟨[⟨"3:1", 5⟩], []⟩).market_history =
      [(("a", "b"), ⟨1, ⟨[⟨"3:1", 5⟩], []⟩⟩)] := by decide

example :
    (update_market_history (update_market_history .init 0 ("a", "b") ⟨[], []⟩)
        40 ("c", "d") ⟨[], []⟩).market_history =
      [(("c", "d"), ⟨40, ⟨[], []⟩⟩)] := by decide

example :
    (update_market_history .init 0 ("a", "b") ⟨[], []⟩).known_currencies = ["a", "b"] := by
  decide

/-! ### The opportunity records -/

/-- `TradingOpportunity` (the dataclass actually constructed by
`find_integer_ratio_opportunities` and `find_spread_opportunities`). -/
structure TradingOpportunity where
  buy_currency : String
  sell_currency : String
  buy_ratio : String
  sell_ratio : String
  potential_profit : ℚ
  trade_volume : Int
  confidence : ℚ
  deriving DecidableEq, Repr

/-- `TriangleOpportunity`. -/
structure TriangleOpportunity where
  step1 : String × String × String
  step2 : String × String × String
  step3 : String × String × String
  total_profit : ℚ
  min_volume : Int
  confidence : ℚ
  deriving DecidableEq, Repr

/-- `MarketMakingOpportunity`.  `volatility` and `confidence` involve `np.std`,
hence live in `ℝ`. -/
structure MarketMakingOpportunity where
  currency_pair : String × String
  bid_price : String
  ask_price : String
  spread : ℚ
  volume : Int
  volatility : ℝ
  confidence : ℝ

/-- The f-string `f"{rate}:1"` (our rational printing stands in for Python's
float formatting; no claim depends on the text). -/
def ratioStr (q : ℚ) : String := toString q ++ ":1"

/-! ### `find_integer_ratio_opportunities` -/

/-- `float.is_integer`. -/
def qIsInteger (q : ℚ) : Bool := q.den = 1

/-- The `for trade in market_data.available_trades` loop: return on the first
trade whose parsed ratio is positive and is an integer or has an integer
reciprocal; fall through to the next trade otherwise. -/
def integerRatioLoop (md : MarketData) : List Trade → Option TradingOpportunity
  | [] => none
  | t :: rest =>
    let ratio := parse_ratio t.ratio
    if 0 < ratio then
      if qIsInteger ratio || qIsInteger (1 / ratio) then
        some ⟨md.i_want, md.i_have, t.ratio, md.market_ratio, 1 / 20, min 100 t.stock, 4 / 5⟩
      else integerRatioLoop md rest
    else integerRatioLoop md rest

/-- `TradingStrategies.find_integer_ratio_opportunities` (the surrounding
`try/except` can never fire: `parse_ratio` is total and the guarded ratio is
positive before it is inverted). -/
def find_integer_ratio_opportunities (md : MarketData) : Option TradingOpportunity :=
  integerRatioLoop md md.available_trades

/-! ### `find_spread_opportunities` -/

/-- `TradingStrategies.find_spread_opportunities`: first quote of each side,
spread `|a - c| / min a c`, 5% threshold, confidence `min(0.9, spread * 10)`,
volume `min(100, stock)`. -/
def find_spread_opportunities (md : MarketData) : Option TradingOpportunity :=
  match md.available_trades, md.competing_trades with
  | best_available :: _, best_competing :: _ =>
    let avail_ratio := parse_ratio best_available.ratio
    let comp_ratio := parse_ratio best_competing.ratio
    if 0 < avail_ratio ∧ 0 < comp_ratio then
      let spread := |avail_ratio - comp_ratio| / min avail_ratio comp_ratio
      if 1 / 20 < spread then
        some ⟨md.i_want, md.i_have, best_available.ratio, best_competing.ratio,
          spread, min 100 best_available.stock, min (9 / 10) (spread * 10)⟩
      else none
    else none
  | _, _ => none

/-! ### `calculate_volatility` -/

/-- `np.mean`. -/
def npMean (l : List ℚ) : ℚ := l.sum / l.length

/-- `np.std`: the population standard deviation. -/
noncomputable def npStd (l : List ℚ) : ℝ :=
  Real.sqrt ((l.map (fun x => ((x : ℝ) - (npMean l : ℝ)) ^ 2)).sum / l.length)

/-- `TradingStrategies.calculate_volatility`: `0.0` for an untracked pair,
otherwise parse the ratios of the stored record's `available_trades`, keep the
positive ones, and return `np.std(ratios) / np.mean(ratios)` (or `0.0` when
nothing remains).  The `except` clause is dead in reachable states: every
stored record carries both trade lists and `parse_ratio` is total. -/
noncomputable def calculate_volatility (s : TradingStrategies) (pair : String × String) : ℝ :=
  match dictGet s.market_history pair with
  | none => 0
  | some rec =>
    let ratios := rec.data.available_trades.map (fun t => parse_ratio t.ratio)
    if ratios.isEmpty then 0
    else
      let pos := ratios.filter (fun r => 0 < r)
      if pos.isEmpty then 0
      else npStd pos / (npMean pos : ℝ)

/-! ### `find_triangle_arbitrage` -/

/-- The per-pair lookup of the rates loop: the pair must be tracked, its
stored record must have a first available trade, and that trade's parsed
ratio must be positive; the rate and the trade's stock are collected. -/
def pairRate (s : TradingStrategies) (base quote : String) : Option (ℚ × Int) :=
  match dictGet s.market_history (base, quote) with
  | none => none
  | some rec =>
    match rec.data.available_trades with
    | [] => none
    | first_trade :: _ =>
      let rate := parse_ratio first_trade.ratio
      if rate ≤ 0 then none else some (rate, first_trade.stock)

/-- One triangle `c1 → c2 → c3 → c1`: all three pair rates must be collected
(`len(rates) != 3` skips the triple otherwise); profit is the rate product
minus `1.0`, kept above the minimum-profit threshold with
`min_volume = min(min(volumes), max_trade_volume)` and
`confidence = min(profit * 3, 1.0)`. -/
def tripleOpp (s : TradingStrategies) (c1 c2 c3 : String) : Option TriangleOpportunity :=
  match pairRate s c1 c2, pairRate s c2 c3, pairRate s c3 c1 with
  | some (r1, v1), some (r2, v2), some (r3, v3) =>
    let profit := r1 * r2 * r3 - 1
    if s.min_profit_threshold < profit then
      some ⟨(c1, c2, ratioStr r1), (c2, c3, ratioStr r2), (c3, c1, ratioStr r3),
        profit, min (min v1 (min v2 v3)) s.max_trade_volume, min (profit * 3) 1⟩
    else none
  | _, _, _ => none

/-- The triple-nested `for` loops over `known_currencies`: every ordered
triple of pairwise distinct currencies, in iteration order. -/
def orderedTriples (ks : List String) : List (String × String × String) :=
  ks.flatMap (fun c1 =>
    (ks.filter (fun c2 => c2 != c1)).flatMap (fun c2 =>
      (ks.filter (fun c3 => c3 != c1 && c3 != c2)).map (fun c3 => (c1, c2, c3))))

/-- `TradingStrategies.find_triangle_arbitrage`: nothing below three known
currencies; otherwise the qualifying triples in discovery order, sorted
descending by `total_profit` (`sorted(..., reverse=True)` is a stable sort,
as is `mergeSort`).  The `market_data` argument is never read. -/
def find_triangle_arbitrage (s : TradingStrategies) (_md : MarketData) :
    List TriangleOpportunity :=
  if s.known_currencies.length < 3 then []
  else
    ((orderedTriples s.known_currencies).filterMap
        (fun t => tripleOpp s t.1 t.2.1 t.2.2)).mergeSort
      (fun a b => b.total_profit ≤ a.total_profit)

/-! ### `find_market_making_opportunities` -/

/-- Python `min` on a non-empty list (the sole call site guards emptiness). -/
def qListMin : List ℚ → ℚ
  | [] => 0
  | x :: xs => xs.foldl min x

/-- Python `max` on a non-empty list (the sole call site guards emptiness). -/
def qListMax : List ℚ → ℚ
  | [] => 0
  | x :: xs => xs.foldl max x

/-- The body of the `for pair_key, history in self.market_history.items()`
loop: skip unless the stored record has trades on both sides, score
bid/ask/volume/volatility and keep the pair when the composite confidence
clears `0.5`.  The `except` clause is dead in reachable states (all keys
exist and all indexing is guarded). -/
noncomputable def scoreMarketMaking (s : TradingStrategies) (pair_key : String × String)
    (history : HistRecord) : Option MarketMakingOpportunity :=
  match history.data.available_trades, history.data.competing_trades with
  | latest :: _, _ :: _ =>
    let available_prices := history.data.available_trades.map (fun t => parse_ratio t.ratio)
    let competing_prices := history.data.competing_trades.map (fun t => parse_ratio t.ratio)
    if available_prices.isEmpty || competing_prices.isEmpty then none
    else
      let bid := qListMin available_prices
      let ask := qListMax competing_prices
      if bid ≤ 0 ∨ ask ≤ 0 then none
      else
        let spread := (ask - bid) / bid
        let volume := latest.stock
        let volatility := calculate_volatility s pair_key
        let volume_score : ℝ := min ((volume : ℝ) / 1000) 1
        let volatility_score : ℝ := max 0 (1 - volatility * 10)
        let spread_score : ℝ := min ((spread : ℝ) * 5) 1
        let confidence := (volume_score + volatility_score + spread_score) / 3
        if 1 / 2 < confidence then
          some ⟨pair_key, ratioStr bid, ratioStr ask, spread, volume, volatility, confidence⟩
        else none
  | _, _ => none

/-- `TradingStrategies.find_market_making_opportunities`: score every tracked
pair in storage order and sort descending by confidence (stable).  The
`market_data` argument is never read. -/
noncomputable def find_market_making_opportunities (s : TradingStrategies) (_md : MarketData) :
    List MarketMakingOpportunity :=
  open Classical in
  (s.market_history.filterMap (fun kv => scoreMarketMaking s kv.1 kv.2)).mergeSort
    (fun a b => decide (b.confidence ≤ a.confidence))

/-! ### `analyze_market` -/

/-- The dict returned by `analyze_market`. -/
structure AnalyzeResult where
  basic : List (String × TradingOpportunity)
  triangle : List TriangleOpportunity
  market_making : List MarketMakingOpportunity

/-- `TradingStrategies.analyze_market`: run the two basic strategies (integer
ratio first, then spread), then triangle arbitrage and market making.  The
method only ever reads `self`, so the state comes back unchanged — recording
a snapshot is the separate `update_market_history` operation, which the
callers invoke on their own before analysing. -/
noncomputable def analyze_market (s : TradingStrategies) (md : MarketData) :
    TradingStrategies × AnalyzeResult :=
  (s,
    { basic :=
        (match find_integer_ratio_opportunities md with
          | some o => [("Integer Ratio", o)]
          | none => []) ++
        (match find_spread_opportunities md with
          | some o => [("Spread", o)]
          | none => []),
      triangle := find_triangle_arbitrage s md,
      market_making := find_market_making_opportunities s md })

/-! ### Helper lemmas -/

theorem decValue_nonneg (p : Decimal) : 0 ≤ decValue p := by
  unfold decValue; positivity

theorem parse_ratio_nonneg (s : String) : 0 ≤ parse_ratio s :=
  div_nonneg (decValue_nonneg _) (decValue_nonneg _)

theorem setAdd_mem_self (l : List String) (c : String) : c ∈ setAdd l c := by
  unfold setAdd; split <;> simp [*]

theorem setAdd_mem_of_mem {l : List String} {a : String} (h : a ∈ l) (c : String) :
    a ∈ setAdd l c := by
  unfold setAdd; split <;> simp [h]

/-! ### C9

`parse_ratio` over exact rationals idealizes Python's `float`, whose range is
bounded: `float()` of a decimal string whose value is at or above the IEEE-754
double overflow threshold saturates to `inf` without raising, and the final
division then follows IEEE rules, so `inf/inf` is `nan`.  The claim is about
exactly that range behaviour ("a finite float ≥ 0"), so it is settled against
a second model of the same source function that keeps the float range: the
character-level stage is shared with `parse_ratio`, only the `float()`
conversion and the division differ. -/

/-- A snapshot whose pair is unknown to a fresh engine. -/
def mdC1 : MarketData := ⟨"divine", "chaos", "3:1", [], []⟩

/-- C1 counterexample: `analyze_market` on a fresh engine performs no
recording at all — afterwards the history is still empty and the snapshot's
currencies were not added to `known_currencies`, contradicting the claim that
every `analyze` call first records the snapshot. -/
theorem analyze_market_records_nothing_cex :
    (analyze_market .init mdC1).1.market_history = [] ∧
      "divine" ∉ (analyze_market .init mdC1).1.known_currencies := by
  constructor
  · rfl
  · show "divine" ∉ TradingStrategies.init.known_currencies
    simp [TradingStrategies.init]

/-- C1 amended: `analyze_market` never writes the engine state (the state
component it returns is the input state, unchanged); recording a snapshot is
the separate `update_market_history` operation — invoked by the callers
before analysing — which always stores the record and adds both currencies of
the pair to `known_currencies`. -/
theorem analyze_market_pure_and_update_records (s : TradingStrategies) (md : MarketData)
    (now : ℤ) (pair : String × String) (data : HistData) :
    (analyze_market s md).1 = s ∧
      pair.1 ∈ (update_market_history s now pair data).known_currencies ∧
      pair.2 ∈ (update_market_history s now pair data).known_currencies := by
  refine ⟨rfl, ?_, ?_⟩
  · exact setAdd_mem_of_mem (setAdd_mem_self _ _) _
  · exact setAdd_mem_self _ _

/-! ### Dictionary lemmas -/

theorem dictSet_keys {β : Type} (m : List ((String × String) × β)) (k : String × String)
    (v : β) :
    (dictSet m k v).map Prod.fst =
      if m.any (fun kv => kv.1 == k) then m.map Prod.fst else m.map Prod.fst ++ [k] := by
  unfold dictSet
  by_cases h : m.any (fun kv => kv.1 == k)
  · simp only [h, if_true, List.map_map]
    apply List.map_congr_left
    intro kv _
    by_cases hk : kv.1 = k <;> simp [hk]
  · simp [h]

theorem not_any_key {β : Type} {m : List ((String × String) × β)} {k : String × String}
    (h : ¬m.any (fun kv => kv.1 == k) = true) : k ∉ m.map Prod.fst := by
  intro hmem
  obtain ⟨kv, hkv, hfst⟩ := List.mem_map.1 hmem
  exact h (List.any_eq_true.2 ⟨kv, hkv, by simp [hfst]⟩)

theorem dictSet_keys_nodup {β : Type} {m : List ((String × String) × β)}
    (h : (m.map Prod.fst).Nodup) (k : String × String) (v : β) :
    ((dictSet m k v).map Prod.fst).Nodup := by
  rw [dictSet_keys]
  by_cases hany : m.any (fun kv => kv.1 == k)
  · simpa [hany] using h
  · simpa [hany, List.nodup_append, h] using not_any_key hany

theorem dictSet_entry_eq {β : Type} {m : List ((String × String) × β)} {k : String × String}
    {v : β} :
    ∀ kv ∈ dictSet m k v, kv.1 = k → kv = (k, v) := by
  intro kv hkv hk
  unfold dictSet at hkv
  split at hkv
  next hany =>
    obtain ⟨kv', hkv', heq⟩ := List.mem_map.1 hkv
    by_cases h' : kv'.1 = k
    · simpa [h'] using heq.symm
    · rw [if_neg (by simpa using h')] at heq
      rw [← heq] at hk
      exact absurd hk h'
  next hany =>
    rcases List.mem_append.1 hkv with h1 | h1
    · exact absurd (List.any_eq_true.2 ⟨kv, h1, by simp [hk]⟩) hany
    · simpa using h1

theorem dictSet_self_mem {β : Type} (m : List ((String × String) × β)) (k : String × String)
    (v : β) : (k, v) ∈ dictSet m k v := by
  unfold dictSet
  split
  next hany =>
    obtain ⟨kv, hkv, hk⟩ := List.any_eq_true.1 hany
    refine List.mem_map.2 ⟨kv, hkv, ?_⟩
    simp only [beq_iff_eq] at hk
    simp [hk]
  next hany => simp

theorem filter_key_length_le_one {β : Type} (k : String × String) :
    ∀ (m : List ((String × String) × β)), (m.map Prod.fst).Nodup →
      (m.filter (fun kv => kv.1 == k)).length ≤ 1 := by
  intro m
  induction m with
  | nil => simp
  | cons kv rest ih =>
    intro h
    rw [List.map_cons, List.nodup_cons] at h
    by_cases hk : kv.1 = k
    · have hrest : rest.filter (fun kv' => kv'.1 == k) = [] := by
        rw [List.filter_eq_nil_iff]
        intro kv' hkv'
        simp only [beq_iff_eq]
        intro hkk
        exact h.1 (List.mem_map.2 ⟨kv', hkv', by rw [hkk, hk]⟩)
      simp [List.filter_cons, hk, hrest]
    · simpa [List.filter_cons, hk] using ih h.2

theorem eq_singleton_of_length_le_one {α : Type} {l : List α} {a : α}
    (hlen : l.length ≤ 1) (hmem : a ∈ l) : l = [a] := by
  match l, hmem with
  | [x], hmem => simpa using (List.mem_singleton.1 hmem).symm
  | x :: y :: rest, _ => simp at hlen

theorem dictSet_filter_key {β : Type} {m : List ((String × String) × β)}
    (h : (m.map Prod.fst).Nodup) (k : String × String) (v : β) :
    (dictSet m k v).filter (fun kv => kv.1 == k) = [(k, v)] := by
  refine eq_singleton_of_length_le_one
    (filter_key_length_le_one k _ (dictSet_keys_nodup h k v)) ?_
  exact List.mem_filter.2 ⟨dictSet_self_mem m k v, by simp⟩

theorem update_keys_nodup {s : TradingStrategies} (now : ℤ) (pair : String × String)
    (data : HistData) (h : (s.market_history.map Prod.fst).Nodup) :
    ((update_market_history s now pair data).market_history.map Prod.fst).Nodup := by
  unfold update_market_history
  exact (dictSet_keys_nodup h pair ⟨now, data⟩).sublist ((List.filter_sublist _).map Prod.fst)

theorem pairHistory_update (s : TradingStrategies) (now : ℤ) (pair : String × String)
    (data : HistData) (h : (s.market_history.map Prod.fst).Nodup) :
    pairHistory (update_market_history s now pair data) pair =
      if 0 < s.history_window then [⟨now, data⟩] else [] := by
  unfold pairHistory update_market_history
  simp only
  rw [List.filter_comm, dictSet_filter_key h]
  by_cases hw : 0 < s.history_window
  · have hlt : now - s.history_window < now := by omega
    simp [List.filter_cons, hlt, hw]
  · have hlt : ¬(now - s.history_window < now) := by omega
    simp [List.filter_cons, hlt, hw]

/-! ### C10 -/

/-- C10: the history store keeps at most one record per pair — on a state with
duplicate-free keys, recording keeps keys duplicate-free, leaves at most one
record for the recorded pair, and any record still stored for that pair is
exactly the one from this (most recent) `record` call: recording replaces
rather than extends. -/
theorem history_single_record_per_pair (s : TradingStrategies) (now : ℤ)
    (pair : String × String) (data : HistData)
    (h : (s.market_history.map Prod.fst).Nodup) :
    ((update_market_history s now pair data).market_history.map Prod.fst).Nodup ∧
    (pairHistory (update_market_history s now pair data) pair).length ≤ 1 ∧
    ∀ r ∈ pairHistory (update_market_history s now pair data) pair, r = ⟨now, data⟩ := by
  refine ⟨update_keys_nodup now pair data h, ?_, ?_⟩
  · rw [pairHistory_update s now pair data h]; split <;> simp
  · rw [pairHistory_update s now pair data h]; split <;> simp

/-- C10 witness at a concrete state. -/
theorem history_single_record_per_pair_witness :
    (TradingStrategies.init.market_history.map Prod.fst).Nodup ∧
    (pairHistory (update_market_history .init 0 ("a", "b") ⟨[], []⟩) ("a", "b")).length ≤ 1 := by
  have h : (TradingStrategies.init.market_history.map Prod.fst).Nodup := by
    simp [TradingStrategies.init]
  exact ⟨h, (history_single_record_per_pair .init 0 ("a", "b") ⟨[], []⟩ h).2.1⟩

/-! ### C3 -/

/-- The window invariant of the claim, at a reading moment `now`: every
visible record was observed within the trailing window of `now`. -/
def entriesWithinWindow (s : TradingStrategies) (now : ℤ) : Prop :=
  ∀ kv ∈ s.market_history, now - s.history_window < kv.2.timestamp

/-- A sample stored snapshot. -/
def dC3 : HistData := ⟨[⟨"2:1", 10⟩], []⟩

/-- C3 counterexample: record a pair at minute 0 and read at minute 41 with
the default 30-minute window.  The timestamp-0 record is still visible to the
reader (reads never evict — eviction happens only inside `record`), so the
claimed "window relative to the read's moment" invariant is false. -/
theorem stale_entry_visible_cex :
    pairHistory (update_market_history .init 0 ("a", "b") dC3) ("a", "b") = [⟨0, dC3⟩] ∧
    ¬entriesWithinWindow (update_market_history .init 0 ("a", "b") dC3) 41 := by
  exact ⟨by decide, by unfold entriesWithinWindow; decide⟩

/-- C3 amended: eviction is relative to the insertion timestamp, not the
reading moment — immediately after any record at time `now`, every stored
entry of every pair is within the window of `now`, but a later read performs
no eviction of its own.  The spec's three-record example does return only the
`t+40` entry on a read at `t+41`, though for a different reason than claimed:
each record replaces the pair's previous single record. -/
theorem history_window_at_record_time (s : TradingStrategies) (now : ℤ)
    (pair : String × String) (data : HistData) :
    entriesWithinWindow (update_market_history s now pair data) now ∧
    pairHistory
        (update_market_history
          (update_market_history (update_market_history .init 0 ("a", "b") dC3)
            10 ("a", "b") dC3) 40 ("a", "b") dC3) ("a", "b") = [⟨40, dC3⟩] := by
  constructor
  · intro kv hkv
    unfold update_market_history at hkv
    simp only at hkv
    simpa using List.of_mem_filter hkv
  · decide

/-! ### C4 -/

/-- Sample stored snapshots. -/
def dC4a : HistData := ⟨[⟨"2:1", 10⟩], []⟩

/-- Sample stored snapshots. -/
def dC4b : HistData := ⟨[⟨"3:1", 5⟩], []⟩

/-- C4 counterexample: two in-window records of the same pair (minutes 0 and
1, window 30).  The claim predicts the pair's history then holds 2 entries;
the store holds exactly one (the second record replaced the first). -/
theorem record_does_not_append_cex :
    (pairHistory (update_market_history (update_market_history .init 0 ("a", "b") dC4a)
        1 ("a", "b") dC4b) ("a", "b")).length ≠ 2 := by decide

/-- C4 amended: `record` stores the snapshot's raw data unchanged (no
`bestRate`/volume extraction from the first quote happens at record time) as
the pair's single record, replacing any previous record of that pair, and
then evicts — for every tracked pair — the entries older than the window
relative to the insertion timestamp. -/
theorem record_replaces_with_raw_data (s : TradingStrategies) (now : ℤ)
    (pair : String × String) (data : HistData)
    (h : (s.market_history.map Prod.fst).Nodup) :
    pairHistory (update_market_history s now pair data) pair =
      (if 0 < s.history_window then [⟨now, data⟩] else []) ∧
    ∀ kv ∈ (update_market_history s now pair data).market_history,
      now - s.history_window < kv.2.timestamp := by
  refine ⟨pairHistory_update s now pair data h, ?_⟩
  intro kv hkv
  unfold update_market_history at hkv
  simp only at hkv
  simpa using List.of_mem_filter hkv

/-- C4 witness at a concrete state. -/
theorem record_replaces_with_raw_data_witness :
    (TradingStrategies.init.market_history.map Prod.fst).Nodup ∧
    pairHistory (update_market_history .init 0 ("a", "b") dC4a) ("a", "b") = [⟨0, dC4a⟩] := by
  have h : (TradingStrategies.init.market_history.map Prod.fst).Nodup := by
    simp [TradingStrategies.init]
  refine ⟨h, ?_⟩
  have h2 := (record_replaces_with_raw_data .init 0 ("a", "b") dC4a h).1
  norm_num [TradingStrategies.init] at h2
  exact h2

/-! ### C2 -/

/-- A snapshot whose market ratio is `"3.5:1"` and whose first available
quote parses to the integer 3. -/
def mdC2 : MarketData := ⟨"divine", "chaos", "3.5:1", [⟨"3:1", 50⟩], []⟩

/-- What the code returns on `mdC2`. -/
def oC2 : TradingOpportunity := ⟨"divine", "chaos", "3:1", "3.5:1", 1 / 20, 50, 4 / 5⟩

theorem evalIntegerC2 : find_integer_ratio_opportunities mdC2 = some oC2 := by
  have hp : parse_ratio "3:1" = 3 := by
    have h : parseD "3:1" = ((3, 0), (1, 0)) := by decide
    rw [parse_ratio_eval h]; norm_num [decValue]
  simp only [find_integer_ratio_opportunities, mdC2, integerRatioLoop, hp, oC2]
  norm_num [qIsInteger]

/-- C2 counterexample: on a snapshot with marketRatio `"3.5:1"` the claim
predicts a Basic opportunity with profit `(3.5 - 3)/3 = 1/6` (and confidence
`1/3`); the integer-ratio strategy never reads the market ratio and emits a
fixed profit of `0.05`. -/
theorem integer_ratio_fixed_profit_cex :
    (find_integer_ratio_opportunities mdC2).map TradingOpportunity.potential_profit =
        some (1 / 20) ∧ (1 / 20 : ℚ) ≠ 1 / 6 := by
  refine ⟨?_, by norm_num⟩
  rw [evalIntegerC2]
  rfl

theorem integerRatioLoop_sound (md : MarketData) :
    ∀ (l : List Trade) (o : TradingOpportunity), integerRatioLoop md l = some o →
      o.potential_profit = 1 / 20 ∧ o.confidence = 4 / 5 ∧ o.buy_currency = md.i_want ∧
      o.sell_currency = md.i_have ∧ o.sell_ratio = md.market_ratio ∧
      ∃ t ∈ l, o.buy_ratio = t.ratio ∧ o.trade_volume = min 100 t.stock ∧
        0 < parse_ratio t.ratio ∧
        (qIsInteger (parse_ratio t.ratio) || qIsInteger (1 / parse_ratio t.ratio)) = true := by
  intro l
  induction l with
  | nil => intro o h; simp [integerRatioLoop] at h
  | cons t rest ih =>
    intro o h
    simp only [integerRatioLoop] at h
    by_cases h0 : 0 < parse_ratio t.ratio
    · rw [if_pos h0] at h
      by_cases h1 : (qIsInteger (parse_ratio t.ratio) ||
          qIsInteger (1 / parse_ratio t.ratio)) = true
      · rw [if_pos h1] at h
        cases h
        exact ⟨rfl, rfl, rfl, rfl, rfl, t, List.mem_cons_self t rest, rfl, rfl, h0, h1⟩
      · rw [if_neg h1] at h
        obtain ⟨p1, p2, p3, p4, p5, t', ht', hrest⟩ := ih o h
        exact ⟨p1, p2, p3, p4, p5, t', List.mem_cons_of_mem t ht', hrest⟩
    · rw [if_neg h0] at h
      obtain ⟨p1, p2, p3, p4, p5, t', ht', hrest⟩ := ih o h
      exact ⟨p1, p2, p3, p4, p5, t', List.mem_cons_of_mem t ht', hrest⟩

/-- C2 amended: the integer-ratio strategy scans the snapshot's available
quotes in order and emits, for the first quote whose parsed ratio is positive
and is an integer or has an integer reciprocal, a Basic opportunity with the
fixed estimated profit `0.05`, fixed confidence `0.8`, that quote's ratio as
buy ratio, the raw market-ratio string as sell ratio, and volume
`min(100, stock)`; the snapshot's market ratio is never parsed and no
floor/ceil profit comparison happens. -/
theorem find_integer_ratio_fixed_profit (md : MarketData) (o : TradingOpportunity)
    (h : find_integer_ratio_opportunities md = some o) :
    o.potential_profit = 1 / 20 ∧ o.confidence = 4 / 5 ∧ o.buy_currency = md.i_want ∧
    o.sell_currency = md.i_have ∧ o.sell_ratio = md.market_ratio ∧
    ∃ t ∈ md.available_trades, o.buy_ratio = t.ratio ∧ o.trade_volume = min 100 t.stock ∧
      0 < parse_ratio t.ratio ∧
      (qIsInteger (parse_ratio t.ratio) || qIsInteger (1 / parse_ratio t.ratio)) = true :=
  integerRatioLoop_sound md md.available_trades o h

/-- C2 witness at the concrete snapshot. -/
theorem find_integer_ratio_fixed_profit_witness :
    find_integer_ratio_opportunities mdC2 = some oC2 ∧
    oC2.potential_profit = 1 / 20 ∧ oC2.confidence = 4 / 5 :=
  ⟨evalIntegerC2, (find_integer_ratio_fixed_profit mdC2 oC2 evalIntegerC2).1,
    (find_integer_ratio_fixed_profit mdC2 oC2 evalIntegerC2).2.1⟩

/-! ### C7 -/

/-- C7: on a snapshot with quotes on both sides whose first quotes parse to
nonzero (hence positive) rates, the spread strategy computes
`spread = |a - c| / min a c` over the FIRST quote of each side and emits a
Basic opportunity exactly when `spread > 0.05`, with profit `spread`,
confidence `min(0.9, spread * 10)` and volume `min(100, first available
quote's stock)`. -/
theorem find_spread_first_quotes (md : MarketData) (ta tc : Trade) (ra rc : List Trade)
    (ha : md.available_trades = ta :: ra) (hc : md.competing_trades = tc :: rc)
    (hpa : parse_ratio ta.ratio ≠ 0) (hpc : parse_ratio tc.ratio ≠ 0) :
    find_spread_opportunities md =
      if 1 / 20 < |parse_ratio ta.ratio - parse_ratio tc.ratio| /
          min (parse_ratio ta.ratio) (parse_ratio tc.ratio) then
        some ⟨md.i_want, md.i_have, ta.ratio, tc.ratio,
          |parse_ratio ta.ratio - parse_ratio tc.ratio| /
            min (parse_ratio ta.ratio) (parse_ratio tc.ratio),
          min 100 ta.stock,
          min (9 / 10) (|parse_ratio ta.ratio - parse_ratio tc.ratio| /
            min (parse_ratio ta.ratio) (parse_ratio tc.ratio) * 10)⟩
      else none := by
  have h0a : 0 < parse_ratio ta.ratio := lt_of_le_of_ne (parse_ratio_nonneg _) (Ne.symm hpa)
  have h0c : 0 < parse_ratio tc.ratio := lt_of_le_of_ne (parse_ratio_nonneg _) (Ne.symm hpc)
  simp only [find_spread_opportunities, ha, hc]
  rw [if_pos ⟨h0a, h0c⟩]

/-- The spec's spread example: first quotes `"100:1"` and `"110:1"`. -/
def mdC7 : MarketData := ⟨"divine", "chaos", "100:1", [⟨"100:1", 50⟩], [⟨"110:1", 7⟩]⟩

/-- C7 witness: on `mdC7` the spread is `10/100 = 0.1 > 0.05` and exactly one
Basic opportunity comes out, with confidence `min(0.9, 1.0) = 0.9`. -/
theorem find_spread_first_quotes_witness :
    parse_ratio "100:1" ≠ 0 ∧ parse_ratio "110:1" ≠ 0 ∧
    find_spread_opportunities mdC7 =
      some ⟨"divine", "chaos", "100:1", "110:1", 1 / 10, 50, 9 / 10⟩ := by
  have h100 : parse_ratio "100:1" = 100 := by
    have h : parseD "100:1" = ((100, 0), (1, 0)) := by decide
    rw [parse_ratio_eval h]; norm_num [decValue]
  have h110 : parse_ratio "110:1" = 110 := by
    have h : parseD "110:1" = ((110, 0), (1, 0)) := by decide
    rw [parse_ratio_eval h]; norm_num [decValue]
  refine ⟨by rw [h100]; norm_num, by rw [h110]; norm_num, ?_⟩
  have h := find_spread_first_quotes mdC7 ⟨"100:1", 50⟩ ⟨"110:1", 7⟩ [] [] rfl rfl
    (by rw [h100]; norm_num) (by rw [h110]; norm_num)
  rw [h]
  have habs : |parse_ratio "100:1" - parse_ratio "110:1"| = 10 := by
    rw [h100, h110]; norm_num
  have hmin : min (parse_ratio "100:1") (parse_ratio "110:1") = 100 := by
    rw [h100, h110]; norm_num
  rw [show (⟨"100:1", 50⟩ : Trade).ratio = "100:1" from rfl,
    show (⟨"110:1", 7⟩ : Trade).ratio = "110:1" from rfl, habs, hmin]
  norm_num [mdC7]

/-! ### C6 -/

/-- Engine state tracking the three pairs `(a,b)`, `(b,c)`, `(c,a)` with
first-quote rates 2, 2 and 0.3 — the spec's triangle example. -/
def sC6 : TradingStrategies :=
  update_market_history
    (update_market_history
      (update_market_history .init 0 ("a", "b") ⟨[⟨"2:1", 10⟩], []⟩)
      0 ("b", "c") ⟨[⟨"2:1", 20⟩], []⟩)
    0 ("c", "a") ⟨[⟨"0.3:1", 30⟩], []⟩

/-- A snapshot (unused by the triangle strategy). -/
def mdC6 : MarketData := ⟨"x", "y", "1:1", [], []⟩

/-- The triangle found starting at `a`. -/
def oC6a : TriangleOpportunity :=
  ⟨("a", "b", ratioStr 2), ("b", "c", ratioStr 2), ("c", "a", ratioStr (3 / 10)),
    1 / 5, 10, 3 / 5⟩

/-- The same cycle discovered again starting at `b`. -/
def oC6b : TriangleOpportunity :=
  ⟨("b", "c", ratioStr 2), ("c", "a", ratioStr (3 / 10)), ("a", "b", ratioStr 2),
    1 / 5, 10, 3 / 5⟩

/-- The same cycle discovered again starting at `c`. -/
def oC6c : TriangleOpportunity :=
  ⟨("c", "a", ratioStr (3 / 10)), ("a", "b", ratioStr 2), ("b", "c", ratioStr 2),
    1 / 5, 10, 3 / 5⟩

theorem evalTriangleC6 :
    find_triangle_arbitrage sC6 mdC6 = [oC6a, oC6b, oC6c] := by
  have hp2 : parse_ratio "2:1" = 2 := by
    have h : parseD "2:1" = ((2, 0), (1, 0)) := by decide
    rw [parse_ratio_eval h]; norm_num [decValue]
  have hp03 : parse_ratio "0.3:1" = 3 / 10 := by
    have h : parseD "0.3:1" = ((3, 1), (1, 0)) := by decide
    rw [parse_ratio_eval h]; norm_num [decValue]
  have hr1 : pairRate sC6 "a" "b" = some (2, 10) := by
    rw [pairRate, show dictGet sC6.market_history ("a", "b") =
      some ⟨0, ⟨[⟨"2:1", 10⟩], []⟩⟩ from by decide]
    simp [hp2]
  have hr2 : pairRate sC6 "b" "c" = some (2, 20) := by
    rw [pairRate, show dictGet sC6.market_history ("b", "c") =
      some ⟨0, ⟨[⟨"2:1", 20⟩], []⟩⟩ from by decide]
    simp [hp2]
  have hr3 : pairRate sC6 "c" "a" = some (3 / 10, 30) := by
    rw [pairRate, show dictGet sC6.market_history ("c", "a") =
      some ⟨0, ⟨[⟨"0.3:1", 30⟩], []⟩⟩ from by decide]
    simp [hp03]
  have hrn1 : pairRate sC6 "a" "c" = none := by
    rw [pairRate, show dictGet sC6.market_history ("a", "c") = none from by decide]
  have hrn2 : pairRate sC6 "b" "a" = none := by
    rw [pairRate, show dictGet sC6.market_history ("b", "a") = none from by decide]
  have hrn3 : pairRate sC6 "c" "b" = none := by
    rw [pairRate, show dictGet sC6.market_history ("c", "b") = none from by decide]
  have ht1 : tripleOpp sC6 "a" "b" "c" = some oC6a := by
    rw [tripleOpp, hr1, hr2, hr3]
    norm_num [oC6a, TradingStrategies.init, show sC6.min_profit_threshold = 3 / 200 from rfl,
      show sC6.max_trade_volume = 1000 from rfl, min_def]
  have ht2 : tripleOpp sC6 "b" "c" "a" = some oC6b := by
    rw [tripleOpp, hr2, hr3, hr1]
    norm_num [oC6b, show sC6.min_profit_threshold = 3 / 200 from rfl,
      show sC6.max_trade_volume = 1000 from rfl, min_def]
  have ht3 : tripleOpp sC6 "c" "a" "b" = some oC6c := by
    rw [tripleOpp, hr3, hr1, hr2]
    norm_num [oC6c, show sC6.min_profit_threshold = 3 / 200 from rfl,
      show sC6.max_trade_volume = 1000 from rfl, min_def]
  have htn1 : tripleOpp sC6 "a" "c" "b" = none := by rw [tripleOpp, hrn1]
  have htn2 : tripleOpp sC6 "b" "a" "c" = none := by rw [tripleOpp, hrn2]
  have htn3 : tripleOpp sC6 "c" "b" "a" = none := by rw [tripleOpp, hrn3]
  rw [find_triangle_arbitrage,
    show sC6.known_currencies = ["a", "b", "c"] from by decide]
  rw [if_neg (by norm_num)]
  rw [show orderedTriples ["a", "b", "c"] =
    [("a", "b", "c"), ("a", "c", "b"), ("b", "a", "c"), ("b", "c", "a"),
      ("c", "a", "b"), ("c", "b", "a")] from by decide]
  simp only [List.filterMap_cons, List.filterMap_nil, ht1, ht2, ht3, htn1, htn2, htn3]
  apply List.mergeSort_of_sorted
  simp [oC6a, oC6b, oC6c]

/-- C6 counterexample: with exactly the three pairs of one profitable cycle
tracked (rates 2, 2, 0.3), the triangle strategy emits THREE opportunities —
the cycle is rediscovered once per rotation of the ordered triple — not
"exactly one" as claimed; each has confidence 0.6. -/
theorem triangle_rotations_cex :
    (find_triangle_arbitrage sC6 mdC6).map TriangleOpportunity.confidence =
        [3 / 5, 3 / 5, 3 / 5] ∧
    (find_triangle_arbitrage sC6 mdC6).length ≠ 1 := by
  rw [evalTriangleC6]
  exact ⟨rfl, by norm_num⟩

theorem tripleOpp_sound {s : TradingStrategies} {c1 c2 c3 : String}
    {o : TriangleOpportunity} (h : tripleOpp s c1 c2 c3 = some o) :
    s.min_profit_threshold < o.total_profit ∧ o.confidence = min (o.total_profit * 3) 1 ∧
    o.min_volume ≤ s.max_trade_volume := by
  unfold tripleOpp at h
  split at h
  next r1 v1 r2 v2 r3 v3 _ _ _ =>
    simp only at h
    split at h
    next hp =>
      cases h
      exact ⟨hp, rfl, min_le_right _ _⟩
    next hp => exact absurd h (by simp)
  next => exact absurd h (by simp)

/-- C6 amended: the triangle strategy runs only with at least 3 known
currencies; every emitted opportunity's profit (rate product minus 1) exceeds
the minimum-profit threshold, its confidence is `min(profit * 3, 1.0)` and its
safe volume is capped by `max_trade_volume`; the output is sorted descending
by total profit (stable sort).  But a qualifying cycle is emitted once per
rotation of the ordered triple: the spec's example (rates 2, 2, 0.3) yields
three Triangle opportunities, each with confidence 0.6 — not exactly one. -/
theorem find_triangle_correct :
    (∀ s md, s.known_currencies.length < 3 → find_triangle_arbitrage s md = []) ∧
    (∀ s md o, o ∈ find_triangle_arbitrage s md →
      s.min_profit_threshold < o.total_profit ∧ o.confidence = min (o.total_profit * 3) 1 ∧
      o.min_volume ≤ s.max_trade_volume) ∧
    (∀ s md, (find_triangle_arbitrage s md).Pairwise
      (fun a b => b.total_profit ≤ a.total_profit)) ∧
    (find_triangle_arbitrage sC6 mdC6).map TriangleOpportunity.confidence =
      [3 / 5, 3 / 5, 3 / 5] := by
  refine ⟨?_, ?_, ?_, by rw [evalTriangleC6]; rfl⟩
  · intro s md h
    rw [find_triangle_arbitrage, if_pos h]
  · intro s md o ho
    rw [find_triangle_arbitrage] at ho
    split at ho
    · simp at ho
    · rw [List.mem_mergeSort] at ho
      obtain ⟨t, _, ht⟩ := List.mem_filterMap.1 ho
      exact tripleOpp_sound ht
  · intro s md
    rw [find_triangle_arbitrage]
    split
    · simp
    · refine List.Pairwise.imp ?_ (List.sorted_mergeSort ?_ ?_ _)
      · intro a b hab
        simpa using hab
      · intro a b c h1 h2
        simp only [decide_eq_true_eq] at h1 h2 ⊢
        exact le_trans h2 h1
      · intro a b
        simpa using le_total b.total_profit a.total_profit

/-- C6 witness at concrete inputs. -/
theorem find_triangle_correct_witness :
    TradingStrategies.init.known_currencies.length < 3 ∧
    find_triangle_arbitrage .init mdC6 = [] ∧
    sC6.min_profit_threshold < oC6a.total_profit :=
  ⟨by simp [TradingStrategies.init],
    find_triangle_correct.1 .init mdC6 (by simp [TradingStrategies.init]),
    (find_triangle_correct.2.1 sC6 mdC6 oC6a (by rw [evalTriangleC6]; simp)).1⟩

/-! ### C8 -/

theorem npMean_pos {l : List ℚ} (hne : l ≠ []) (hpos : ∀ x ∈ l, 0 < x) : 0 < npMean l := by
  unfold npMean
  apply div_pos (List.sum_pos l hpos hne)
  exact_mod_cast List.length_pos.2 hne

/-- The volatility computation the claim describes, spelled from the spec's
words for comparison: gather each history ENTRY's `bestRate` (the parsed
ratio of the entry's first available quote), keep the positive ones, return
population standard deviation over mean, `0.0` when nothing remains
(including an unknown pair). -/
noncomputable def specVolatility (s : TradingStrategies) (pair : String × String) : ℝ :=
  let rates := (pairHistory s pair).map (fun rec =>
    match rec.data.available_trades with
    | [] => 0
    | t :: _ => parse_ratio t.ratio)
  let pos := rates.filter (fun r => 0 < r)
  if pos.isEmpty then 0 else npStd pos / (npMean pos : ℝ)

/-- A pair tracked with one record whose snapshot has TWO quotes, rates 2
and 4. -/
def sC8 : TradingStrategies :=
  update_market_history .init 0 ("a", "b") ⟨[⟨"2:1", 1⟩, ⟨"4:1", 1⟩], []⟩

/-- The record `sC8` stores. -/
def recC8 : HistRecord := ⟨0, ⟨[⟨"2:1", 1⟩, ⟨"4:1", 1⟩], []⟩⟩

theorem parse_two : parse_ratio "2:1" = 2 := by
  have h : parseD "2:1" = ((2, 0), (1, 0)) := by decide
  rw [parse_ratio_eval h]; norm_num [decValue]

theorem parse_four : parse_ratio "4:1" = 4 := by
  have h : parseD "4:1" = ((4, 0), (1, 0)) := by decide
  rw [parse_ratio_eval h]; norm_num [decValue]

theorem npMean_two_four : npMean [2, 4] = 3 := by norm_num [npMean]

theorem calculate_volatility_none {s : TradingStrategies} {pair : String × String}
    (h : dictGet s.market_history pair = none) : calculate_volatility s pair = 0 := by
  unfold calculate_volatility
  rw [h]

theorem calculate_volatility_some {s : TradingStrategies} {pair : String × String}
    {rec : HistRecord} (h : dictGet s.market_history pair = some rec) :
    calculate_volatility s pair =
      (if (rec.data.available_trades.map (fun t => parse_ratio t.ratio)).isEmpty then 0
        else if ((rec.data.available_trades.map (fun t => parse_ratio t.ratio)).filter
            (fun r => 0 < r)).isEmpty then 0
        else npStd ((rec.data.available_trades.map (fun t => parse_ratio t.ratio)).filter
            (fun r => 0 < r)) /
          (npMean ((rec.data.available_trades.map (fun t => parse_ratio t.ratio)).filter
            (fun r => 0 < r)) : ℝ)) := by
  unfold calculate_volatility
  rw [h]

theorem npStd_two_four : npStd [2, 4] = 1 := by
  unfold npStd
  rw [npMean_two_four]
  norm_num

/-- C8 counterexample: with one stored record whose snapshot has quotes at
rates 2 and 4, the code computes the volatility over BOTH quotes of that one
record — `std([2,4])/mean([2,4]) = 1/3` — while the claim's
one-bestRate-per-entry reading gives `std([2])/mean([2]) = 0`. -/
theorem volatility_sources_cex :
    calculate_volatility sC8 ("a", "b") = 1 / 3 ∧
    specVolatility sC8 ("a", "b") = 0 ∧ ((1 : ℝ) / 3 ≠ 0) := by
  have hget : dictGet sC8.market_history ("a", "b") = some recC8 := by decide
  have hfilter : (([2, 4] : List ℚ).filter (fun r => 0 < r)) = [2, 4] := by norm_num
  refine ⟨?_, ?_, by norm_num⟩
  · rw [calculate_volatility_some hget]
    simp only [recC8, parse_two, parse_four, List.map_cons, List.map_nil]
    rw [if_neg (by simp)]
    rw [hfilter, if_neg (by simp)]
    rw [npMean_two_four, npStd_two_four]
    norm_num
  · unfold specVolatility
    rw [show pairHistory sC8 ("a", "b") = [recC8] from by decide]
    simp only [recC8, parse_two, List.map_cons, List.map_nil]
    rw [show (([2] : List ℚ).filter (fun r => 0 < r)) = [2] from by norm_num]
    rw [if_neg (by simp)]
    have hm : npMean [2] = 2 := by norm_num [npMean]
    have hs : npStd [2] = 0 := by
      unfold npStd
      rw [hm]
      norm_num
    rw [hm, hs]
    norm_num

/-- C8 amended: volatility is computed from the parsed ratios of ALL
available trades of the pair's single stored record (not from one `bestRate`
per history entry); non-positive rates are discarded; when at least one
remains the result is the population standard deviation divided by the mean
(in particular it is always nonnegative), and `0.0` otherwise, including for
an unknown pair. -/
theorem calculate_volatility_correct (s : TradingStrategies) (pair : String × String) :
    0 ≤ calculate_volatility s pair ∧
    (dictGet s.market_history pair = none → calculate_volatility s pair = 0) ∧
    (∀ rec, dictGet s.market_history pair = some rec →
      (((rec.data.available_trades.map (fun t => parse_ratio t.ratio)).filter
          (fun r => 0 < r)) = [] → calculate_volatility s pair = 0) ∧
      (((rec.data.available_trades.map (fun t => parse_ratio t.ratio)).filter
          (fun r => 0 < r)) ≠ [] →
        calculate_volatility s pair =
          npStd ((rec.data.available_trades.map (fun t => parse_ratio t.ratio)).filter
              (fun r => 0 < r)) /
            (npMean ((rec.data.available_trades.map (fun t => parse_ratio t.ratio)).filter
              (fun r => 0 < r)) : ℝ))) := by
  refine ⟨?_, fun hnone => calculate_volatility_none hnone, ?_⟩
  · rcases hd : dictGet s.market_history pair with _ | rec
    · rw [calculate_volatility_none hd]
    · rw [calculate_volatility_some hd]
      split
      · exact le_refl 0
      split
      · exact le_refl 0
      next hpos =>
        apply div_nonneg (Real.sqrt_nonneg _)
        have hne : (rec.data.available_trades.map (fun t => parse_ratio t.ratio)).filter
            (fun r => 0 < r) ≠ [] := by
          simpa [List.isEmpty_iff] using hpos
        have := npMean_pos hne (by
          intro x hx
          simpa using (List.mem_filter.1 hx).2)
        exact_mod_cast this.le
  · intro rec hrec
    constructor
    · intro hempty
      rw [calculate_volatility_some hrec]
      split
      · rfl
      · rw [if_pos (by simpa [List.isEmpty_iff] using hempty)]
    · intro hne
      rw [calculate_volatility_some hrec]
      rw [if_neg (by
        simp only [List.isEmpty_iff]
        intro hmap
        exact hne (by simp [hmap]))]
      rw [if_neg (by simpa [List.isEmpty_iff] using hne)]

/-- C8 witness at the concrete state. -/
theorem calculate_volatility_correct_witness :
    dictGet sC8.market_history ("a", "b") = some recC8 ∧
    calculate_volatility sC8 ("a", "b") =
      npStd ((recC8.data.available_trades.map (fun t => parse_ratio t.ratio)).filter
          (fun r => 0 < r)) /
        (npMean ((recC8.data.available_trades.map (fun t => parse_ratio t.ratio)).filter
          (fun r => 0 < r)) : ℝ) := by
  have hget : dictGet sC8.market_history ("a", "b") = some recC8 := by decide
  have hne : ((recC8.data.available_trades.map (fun t => parse_ratio t.ratio)).filter
      (fun r => 0 < r)) ≠ [] := by
    simp only [recC8, parse_two, parse_four, List.map_cons, List.map_nil]
    rw [show (([2, 4] : List ℚ).filter (fun r => 0 < r)) = [2, 4] from by norm_num]
    exact List.cons_ne_nil 2 [4]
  exact ⟨hget, ((calculate_volatility_correct sC8 ("a", "b")).2.2 recC8 hget).2 hne⟩

/-! ### C5 -/

theorem parse_one : parse_ratio "1:1" = 1 := by
  have h : parseD "1:1" = ((1, 0), (1, 0)) := by decide
  rw [parse_ratio_eval h]; norm_num [decValue]

/-- A pair tracked by a single record: one available quote at rate 1 with
stock 1000, one competing quote at rate 2. -/
def sC5 : TradingStrategies :=
  update_market_history .init 0 ("a", "b") ⟨[⟨"1:1", 1000⟩], [⟨"2:1", 5⟩]⟩

/-- The record `sC5` stores. -/
def recC5 : HistRecord := ⟨0, ⟨[⟨"1:1", 1000⟩], [⟨"2:1", 5⟩]⟩⟩

/-- A current snapshot with NO quotes on either side. -/
def mdC5 : MarketData := ⟨"x", "y", "1:1", [], []⟩

/-- The market-making opportunity the code emits for `sC5`. -/
noncomputable def oC5 : MarketMakingOpportunity :=
  ⟨("a", "b"), ratioStr 1, ratioStr 2, 1, 1000, 0, 1⟩

theorem volC5 : calculate_volatility sC5 ("a", "b") = 0 := by
  have hget : dictGet sC5.market_history ("a", "b") = some recC5 := by decide
  rw [calculate_volatility_some hget]
  simp only [recC5, parse_one, List.map_cons, List.map_nil]
  rw [show (([1] : List ℚ).filter (fun r => 0 < r)) = [1] from by norm_num]
  rw [if_neg (by simp), if_neg (by simp)]
  have hm : npMean [1] = 1 := by norm_num [npMean]
  have hs : npStd [1] = 0 := by
    unfold npStd
    rw [hm]
    norm_num
  rw [hm, hs]
  norm_num

theorem scoreC5 : scoreMarketMaking sC5 ("a", "b") recC5 = some oC5 := by
  simp only [scoreMarketMaking, recC5, parse_one, parse_two, List.map_cons, List.map_nil,
    volC5, qListMin, qListMax, List.foldl_nil]
  rw [if_neg (by simp)]
  rw [if_neg (by norm_num)]
  rw [if_pos (by push_cast; norm_num [min_def, max_def])]
  simp only [oC5, Option.some_inj, MarketMakingOpportunity.mk.injEq, true_and, and_true]
  refine ⟨by norm_num, ?_⟩
  push_cast
  norm_num [min_def, max_def]

theorem evalMMC5 : find_market_making_opportunities sC5 mdC5 = [oC5] := by
  rw [find_market_making_opportunities,
    show sC5.market_history = [(("a", "b"), recC5)] from by decide]
  simp only [List.filterMap_cons, List.filterMap_nil, scoreC5]
  apply List.mergeSort_of_sorted
  simp

/-- C5 counterexample: the tracked pair has exactly ONE history entry (fewer
than 5) and the current snapshot has no quotes at all on either side, yet the
market-making strategy emits the pair: the claimed ≥5-entries requirement and
current-snapshot non-emptiness requirement do not exist in the code. -/
theorem market_making_no_min_history_cex :
    (pairHistory sC5 ("a", "b")).length = 1 ∧
    mdC5.available_trades = [] ∧ mdC5.competing_trades = [] ∧
    (find_market_making_opportunities sC5 mdC5).map
        MarketMakingOpportunity.currency_pair = [("a", "b")] := by
  refine ⟨by decide, rfl, rfl, ?_⟩
  rw [evalMMC5]
  rfl

/-- C5 amended: the market-making strategy never consults the snapshot passed
to `analyze` — its output depends only on the engine state, so the claimed
current-snapshot checks cannot exist; the non-emptiness checks are on the
STORED record of the pair being iterated, and there is no minimum
history-entry count (a pair with a single stored record can be emitted). -/
theorem find_market_making_ignores_snapshot (s : TradingStrategies) (md₁ md₂ : MarketData) :
    find_market_making_opportunities s md₁ = find_market_making_opportunities s md₂ := rfl

end PoeTrader
